import Mathlib

/-!
Shallow embedding of the core of the `video_editor` repository:
the segment compiler and ffmpeg graph builder (`src/utils/ffmpegUtils.ts`),
the audio synchronization engine (`src/utils/autoSync.ts`, reconstructed in
`src/unnamed/part_003`, and `src/workers/syncWorker.ts`), and the memory
guard (`src/utils/fileValidation.ts`).

JavaScript numbers are modelled as exact rationals (`ℚ`); sample buffers as
`List ℚ`; integer indices and lags as `ℤ`/`ℕ`.  JavaScript `-Infinity`
(the initial value of `bestCorrelation` in `findBestLag`) is modelled as
`Option ℚ` with `none` standing for `-Infinity`.
-/

namespace VideoEditor

/-- JS object `{ start, end }` used both for cut segments and keep segments
(`CutSegment` in `useAppStore.ts`; the `id` field is never read by the
functions modelled here and is omitted).  `end` is a Lean keyword, hence
the guillemets. -/
structure CutSegment where
  start : ℚ
  «end» : ℚ
deriving DecidableEq, Repr

/-! ## SegmentCompiler (`getKeepSegments`, ffmpegUtils.ts lines 17–57)

The JS function copies the cuts *array* (`[...cuts].sort(...)`) but not the
cut *objects*: `currentCut.end = Math.max(currentCut.end, nextCut.end)`
writes through to the caller's objects.  The embedding therefore threads the
caller's array (`heap`, indexed by object position) through the merge loop
and returns it alongside the keep segments. -/

/-- `[...cuts].sort((a, b) => a.start - b.start)`: a stable ascending sort
by `start`, applied to the cuts decorated with their position in the
caller's array.  `List.insertionSort` with `a.start ≤ b.start` places each
element before the first already-placed element with a `≥` key, which is
exactly the stable-sort order of the JS engine sort. -/
def sortedEnum (cuts : List CutSegment) : List (ℕ × CutSegment) :=
  List.insertionSort (fun a b => a.2.start ≤ b.2.start) cuts.enum

/-- The merge loop of `getKeepSegments` (lines 27–40).  `curIdx`/`cur` play
the role of `currentCut` (the value `cur` mirrors the object that lives at
position `curIdx` of the caller's array); `heap` is the caller's array,
updated whenever the JS code assigns `currentCut.end`.  Returns the values
of `mergedCuts` together with the final state of the caller's array. -/
def mergeLoop (heap : List CutSegment) (curIdx : ℕ) (cur : CutSegment) :
    List (ℕ × CutSegment) → List CutSegment → List CutSegment × List CutSegment
  | [], acc => (acc ++ [cur], heap)
  | nxt :: rest, acc =>
    if nxt.2.start < cur.«end» then
      let cur' : CutSegment := ⟨cur.start, max cur.«end» nxt.2.«end»⟩
      mergeLoop (heap.set curIdx cur') curIdx cur' rest acc
    else
      mergeLoop heap nxt.1 nxt.2 rest (acc ++ [cur])

/-- The sort-and-merge phase of `getKeepSegments`: the values of the JS
`mergedCuts` array paired with the final contents of the caller's `cuts`
array.  (On an empty input the merge loop never runs.) -/
def mergedResult (cuts : List CutSegment) : List CutSegment × List CutSegment :=
  match sortedEnum cuts with
  | [] => ([], cuts)
  | first :: rest => mergeLoop cuts first.1 first.2 rest []

/-- The keep-segment emission loop of `getKeepSegments` (lines 42–50):
walks the merged cuts with cursor `currentTime = t`, emitting the gap
before each cut when it is non-degenerate; returns the segments and the
final cursor. -/
def segLoop (t : ℚ) : List CutSegment → List CutSegment × ℚ
  | [] => ([], t)
  | c :: rest =>
    let gap : List CutSegment := if c.start > t then [⟨t, c.start⟩] else []
    let r := segLoop (max t c.«end») rest
    (gap ++ r.1, r.2)

/-- `getKeepSegments(cuts, totalDuration)` (ffmpegUtils.ts lines 17–57).
First component: the returned keep segments.  Second component: the
caller's `cuts` array after the call (the JS function mutates the `end`
fields of the caller's cut objects when it merges overlapping cuts). -/
def getKeepSegments (cuts : List CutSegment) (totalDuration : ℚ) :
    List CutSegment × List CutSegment :=
  if cuts.length = 0 then ([⟨0, totalDuration⟩], cuts)
  else
    let m := mergedResult cuts
    let r := segLoop 0 m.1
    (r.1 ++ (if r.2 < totalDuration then [⟨r.2, totalDuration⟩] else []), m.2)

/-- Sum of segment durations, `Σ (end - start)`. -/
def sumDur (l : List CutSegment) : ℚ :=
  (l.map (fun c => c.«end» - c.start)).sum

/-- The bounds claim C6 assumes of every input cut:
`0 ≤ start < end ≤ totalDuration`. -/
def GoodCut (totalDuration : ℚ) (c : CutSegment) : Prop :=
  0 ≤ c.start ∧ c.start < c.«end» ∧ c.«end» ≤ totalDuration

instance (totalDuration : ℚ) (c : CutSegment) : Decidable (GoodCut totalDuration c) := by
  unfold GoodCut
  infer_instance

/-- Invariant of the merged cut list handed to the keep-segment loop:
starting from cursor `t`, each cut starts no earlier than the cursor, is
non-degenerate, ends within the total duration, and the cursor advances to
its end. -/
inductive GoodChain (totalDuration : ℚ) : ℚ → List CutSegment → Prop
  | nil (t : ℚ) : GoodChain totalDuration t []
  | cons {t : ℚ} {c : CutSegment} {rest : List CutSegment} :
      t ≤ c.start → c.start < c.«end» → c.«end» ≤ totalDuration →
      GoodChain totalDuration c.«end» rest → GoodChain totalDuration t (c :: rest)

/-- The sort relation of `sortedEnum` is total. -/
instance : IsTotal (ℕ × CutSegment) (fun a b => a.2.start ≤ b.2.start) :=
  ⟨fun _ _ => le_total _ _⟩

/-- The sort relation of `sortedEnum` is transitive. -/
instance : IsTrans (ℕ × CutSegment) (fun a b => a.2.start ≤ b.2.start) :=
  ⟨fun _ _ _ => le_trans⟩

/-! ## GraphBuilder (`buildFFmpegCommand`, ffmpegUtils.ts lines 75–198)

Following the spec's own design note (§9), the `;`-joined filter strings
pushed into `filterComplex` are modelled as structured instruction records
(one constructor per filter string the source can push), and the argument
vector as a list that carries the filter-complex block as one element. -/

/-- One entry of the JS `filterComplex` array.  Stream labels are kept as
strings without the surrounding brackets; numeric parameters are kept as
numbers.  `adelay` stores the (single, repeated for both channels)
millisecond delay; `atrimStart` is the head trim `atrim=start=s`;
`asetpts` is the timestamp reset `asetpts=PTS-STARTPTS`; `trimSeg` and
`atrimSeg` are the per-segment `trim/atrim=start=s:end=e` filters with
their fused timestamp reset; `concat` is `concat=n=..:v=1:a=1`. -/
inductive FilterInstr where
  | adelay (src : String) (ms : ℤ) (out : String)
  | atrimStart (src : String) (startSec : ℚ) (out : String)
  | asetpts (src : String) (out : String)
  | asplit (src : String) (n : ℕ) (outs : List String)
  | trimSeg (src : String) (s e : ℚ) (out : String)
  | atrimSeg (src : String) (s e : ℚ) (out : String)
  | concat (inputs : List String) (n : ℕ) (outV outA : String)
  | loudnorm (src : String) (out : String)
deriving DecidableEq, Repr

/-- `true` exactly on the delay instruction (`adelay`). -/
def FilterInstr.isDelayInstr : FilterInstr → Bool
  | .adelay _ _ _ => true
  | _ => false

/-- `true` exactly on the head-trim instruction (`atrim=start=..` without
an `end`, as emitted for a negative sync offset). -/
def FilterInstr.isHeadTrimInstr : FilterInstr → Bool
  | .atrimStart _ _ _ => true
  | _ => false

/-- `config.format`. -/
inductive VideoFormat where
  | mp4
  | webm
deriving DecidableEq, Repr

/-- `config.quality`. -/
inductive Quality where
  | high
  | medium
  | low
deriving DecidableEq, Repr

/-- `ExportConfig` (ffmpegUtils.ts lines 3–9). -/
structure ExportConfig where
  format : VideoFormat
  quality : Quality
  includeAudio : Bool
  applyCuts : Bool
  normalizeAudio : Bool
deriving DecidableEq, Repr

/-- JS `Math.round` for the non-negative arguments it is applied to here
(round half up). -/
def jsRound (q : ℚ) : ℤ := ⌊q + 1 / 2⌋

/-- The regex test `/^\d+:a$/.test(audioSource)`: one or more digits
followed by `:a`. -/
def isStreamRef (s : String) : Bool :=
  let cs := s.toList
  let digits := cs.takeWhile Char.isDigit
  !digits.isEmpty && decide (cs.drop digits.length = [':', 'a'])

/-- The audio pre-processing (sync) block of `buildFFmpegCommand`
(lines 95–122): returns the filters pushed by the block and the value of
`audioSource` after it. -/
def syncFilters (includeAudio hasExternalAudio : Bool) (syncOffset : ℚ) :
    List FilterInstr × String :=
  if includeAudio && hasExternalAudio then
    if syncOffset ≠ 0 then
      let delayMs := jsRound (|syncOffset| * 1000)
      if 0 < syncOffset then
        ([.adelay "1:a" delayMs "a_synced"], "a_synced")
      else
        ([.atrimStart "1:a" |syncOffset| "a_synced",
          .asetpts "a_synced" "a_synced_pts"], "a_synced_pts")
    else ([], "1:a")
  else ([], "0:a")

/-- The per-segment trim filters pushed by the `segments.forEach` loop
(lines 143–156): for segment `i`, a video trim into `v{i}` and an audio
trim of `audioSrcFor i` into `a{i}`. -/
def segmentFilters (segments : List CutSegment) (audioSrcFor : ℕ → String) :
    List FilterInstr :=
  segments.enum.flatMap (fun p =>
    [.trimSeg "0:v" p.2.start p.2.«end» ("v" ++ toString p.1),
     .atrimSeg (audioSrcFor p.1) p.2.start p.2.«end» ("a" ++ toString p.1)])

/-- The interleaved `segmentsToConcat` labels `[v0][a0][v1][a1]…`. -/
def segmentConcatLabels (segments : List CutSegment) : List String :=
  segments.enum.flatMap (fun p => ["v" ++ toString p.1, "a" ++ toString p.1])

/-- The full `filterComplex` array built by `buildFFmpegCommand`
(lines 90–175): sync filters, then the optional `asplit`, then the
per-segment trims, the `concat`, and the optional `loudnorm`. -/
def buildFilterComplex (config : ExportConfig) (cuts : List CutSegment)
    (totalDuration syncOffset : ℚ) (hasExternalAudio : Bool) : List FilterInstr :=
  let segments :=
    if config.applyCuts then (getKeepSegments cuts totalDuration).1
    else [⟨0, totalDuration⟩]
  let sf := syncFilters config.includeAudio hasExternalAudio syncOffset
  let audioSource := sf.2
  let n := segments.length
  let isAudioFilterOutput := !isStreamRef audioSource
  let needSplit := decide (1 < n) && isAudioFilterOutput
  let splitFilters : List FilterInstr :=
    if needSplit then
      [.asplit audioSource n ((List.range n).map (fun i => "a_src_" ++ toString i))]
    else []
  let audioSrcFor : ℕ → String :=
    if needSplit then (fun i => "a_src_" ++ toString i) else (fun _ => audioSource)
  sf.1 ++ splitFilters ++ segmentFilters segments audioSrcFor ++
    [.concat (segmentConcatLabels segments) n "v_out" "a_pre_norm"] ++
    (if config.normalizeAudio then [.loudnorm "a_pre_norm" "a_out"] else [])

/-- One element of the argument vector returned by `buildFFmpegCommand`:
either a plain string argument or the (structured) filter-complex block. -/
inductive FFArg where
  | str (s : String)
  | filterComplexArg (fs : List FilterInstr)
deriving DecidableEq, Repr

/-- File extension of a `VideoFormat`. -/
def VideoFormat.ext : VideoFormat → String
  | .mp4 => "mp4"
  | .webm => "webm"

/-- `buildFFmpegCommand` (ffmpegUtils.ts lines 75–198): inputs, the
filter-complex block, stream maps, encoder settings, output name. -/
def buildFFmpegCommand (config : ExportConfig) (cuts : List CutSegment)
    (totalDuration syncOffset : ℚ) (hasExternalAudio : Bool) : List FFArg :=
  let inputArgs := [FFArg.str "-i", .str "input_video"] ++
    (if config.includeAudio && hasExternalAudio then [FFArg.str "-i", .str "input_audio"]
     else [])
  let fc := buildFilterComplex config cuts totalDuration syncOffset hasExternalAudio
  let finalAudio := if config.normalizeAudio then "a_out" else "a_pre_norm"
  let mapArgs := [FFArg.str "-map", .str "[v_out]", .str "-map",
    .str ("[" ++ finalAudio ++ "]")]
  let encArgs :=
    if config.format = .mp4 then
      let crf := if config.quality = .high then "18"
        else if config.quality = .medium then "23" else "28"
      [FFArg.str "-c:v", .str "libx264", .str "-crf", .str crf,
       .str "-preset", .str "ultrafast", .str "-c:a", .str "aac",
       .str "-b:a", .str "192k", .str "-movflags", .str "+faststart"]
    else
      let crf := if config.quality = .high then "30"
        else if config.quality = .medium then "35" else "40"
      [FFArg.str "-c:v", .str "libvpx-vp9", .str "-crf", .str crf,
       .str "-b:v", .str "0", .str "-deadline", .str "realtime",
       .str "-c:a", .str "libopus", .str "-b:a", .str "128k"]
  inputArgs ++ [FFArg.str "-filter_complex", .filterComplexArg fc] ++
    mapArgs ++ encArgs ++ [FFArg.str ("output." ++ config.format.ext)]

/-! ## Correlator (autoSync.ts = `src/unnamed/part_003` lines 473–566, and
`src/workers/syncWorker.ts` lines 14–96)

The worker file duplicates `normalize` and `findBestLag` verbatim (minus
the dead `coarseCandidates` accumulator) but uses a count-based
`computeCorrelation` loop instead of the start/end-window one.  Worker-file
versions carry a `W` suffix. -/

/-- `TARGET_SAMPLE_RATE = 8000` (both files). -/
def TARGET_SAMPLE_RATE : ℕ := 8000

/-- `ANALYSIS_CHUNK_SECONDS = 30` (syncWorker.ts). -/
def ANALYSIS_CHUNK_SECONDS : ℕ := 30

/-- `MAX_OFFSET_SECONDS = 30` (autoSync.ts). -/
def MAX_OFFSET_SECONDS : ℚ := 30

/-- `normalize` (autoSync.ts lines 473–486): peak-normalize to ±1, and
return the all-zero signal unchanged. -/
def normalize (signal : List ℚ) : List ℚ :=
  let m := signal.foldl (fun mx x => if mx < |x| then |x| else mx) 0
  if m = 0 then signal else signal.map (fun x => x / m)

/-- `normalize` as duplicated in syncWorker.ts (lines 14–27); same text. -/
def normalizeW (signal : List ℚ) : List ℚ :=
  let m := signal.foldl (fun mx x => if mx < |x| then |x| else mx) 0
  if m = 0 then signal else signal.map (fun x => x / m)

/-- `computeCorrelation` (autoSync.ts lines 550–566): overlap window
`[max(0,-lag), min(ref.length, target.length - lag))`, returning 0 on an
empty window, else the mean product over the window. -/
def computeCorrelation (ref target : List ℚ) (lag : ℤ) : ℚ :=
  let s : ℤ := max 0 (-lag)
  let e : ℤ := min (ref.length : ℤ) ((target.length : ℤ) - lag)
  if e ≤ s then 0
  else
    (((List.range (e - s).toNat).map
      (fun (k : ℕ) => ref.getD (s + (k : ℤ)).toNat 0 *
        target.getD (s + (k : ℤ) + lag).toNat 0)).sum) /
      ((e - s : ℤ) : ℚ)

/-- The loop body of the worker's `computeCorrelation` (syncWorker.ts
lines 37–42): carries `(sum, count)`, skips out-of-range target indices. -/
def corrStepW (ref target : List ℚ) (lag : ℤ) (p : ℚ × ℕ) (i : ℕ) : ℚ × ℕ :=
  let targetIdx : ℤ := (i : ℤ) + lag
  if targetIdx < 0 ∨ (target.length : ℤ) ≤ targetIdx then p
  else (p.1 + ref.getD i 0 * target.getD targetIdx.toNat 0, p.2 + 1)

/-- `computeCorrelation` (syncWorker.ts lines 29–45): loop over every
reference index, skipping out-of-range target indices, counting the
in-range pairs, and dividing the sum by the count (0 when the count is 0). -/
def computeCorrelationW (ref target : List ℚ) (lag : ℤ) : ℚ :=
  let p := (List.range ref.length).foldl (corrStepW ref target lag) (0, 0)
  if 0 < p.2 then p.1 / (p.2 : ℚ) else 0

/-- The mutable search state of `findBestLag`.  `bestCorrelation` starts
as JS `-Infinity`, modelled by `none`. -/
structure SearchState where
  bestCorrelation : Option ℚ
  bestLag : ℤ
  sumCorrelations : ℚ
  correlationCount : ℕ
deriving DecidableEq, Repr

/-- The comparison `corr > bestCorrelation`, where `bestCorrelation` may
still be `-Infinity` (`none`). -/
def corrGtBest (corr : ℚ) : Option ℚ → Bool
  | none => true
  | some b => decide (b < corr)

/-- `const step = Math.max(1, Math.floor(maxLagSamples / 2000))`.  Integer
division on `ℤ` is Euclidean, which agrees with `Math.floor` for the
positive divisor 2000. -/
def searchStride (maxLagSamples : ℤ) : ℤ := max 1 (maxLagSamples / 2000)

/-- The lags visited by the coarse loop
`for (lag = -maxLagSamples; lag <= maxLagSamples; lag += step)`:
`-maxLagSamples + k·step` for `k = 0 … (2·maxLagSamples)/step` (an empty
list when `maxLagSamples < 0`). -/
def coarseLags (maxLagSamples : ℤ) : List ℤ :=
  (List.range (2 * maxLagSamples / searchStride maxLagSamples + 1).toNat).map
    (fun (k : ℕ) => -maxLagSamples + (k : ℤ) * searchStride maxLagSamples)

/-- The lags visited by the fine loop
`for (lag = bestLag - fineRange; lag <= bestLag + fineRange; lag++)` with
`fineRange = step * 2` (before the in-range filter). -/
def fineLags (maxLagSamples bLag : ℤ) : List ℤ :=
  let fineRange := searchStride maxLagSamples * 2
  (List.range (2 * fineRange + 1).toNat).map
    (fun (k : ℕ) => bLag - fineRange + (k : ℤ))

/-- One iteration of the coarse loop body (autoSync.ts lines 515–522):
accumulate `|corr|` and the count, update the best on `corr > best`. -/
def coarseStep (refChunk target : List ℚ) (s : SearchState) (lag : ℤ) : SearchState :=
  let corr := computeCorrelation refChunk target lag
  { bestCorrelation := if corrGtBest corr s.bestCorrelation then some corr
      else s.bestCorrelation
    bestLag := if corrGtBest corr s.bestCorrelation then lag else s.bestLag
    sumCorrelations := s.sumCorrelations + |corr|
    correlationCount := s.correlationCount + 1 }

/-- One iteration of the fine loop body (autoSync.ts lines 528–536): skip
out-of-range lags, update the best on `corr > best`. -/
def fineStep (refChunk target : List ℚ) (maxLagSamples : ℤ)
    (s : SearchState) (lag : ℤ) : SearchState :=
  if lag < -maxLagSamples ∨ maxLagSamples < lag then s
  else
    let corr := computeCorrelation refChunk target lag
    if corrGtBest corr s.bestCorrelation then
      { s with bestCorrelation := some corr, bestLag := lag }
    else s

/-- Worker-file coarse loop body (syncWorker.ts lines 67–76); identical to
`coarseStep` except that it calls the worker's `computeCorrelation`. -/
def coarseStepW (refChunk target : List ℚ) (s : SearchState) (lag : ℤ) : SearchState :=
  let corr := computeCorrelationW refChunk target lag
  { bestCorrelation := if corrGtBest corr s.bestCorrelation then some corr
      else s.bestCorrelation
    bestLag := if corrGtBest corr s.bestCorrelation then lag else s.bestLag
    sumCorrelations := s.sumCorrelations + |corr|
    correlationCount := s.correlationCount + 1 }

/-- Worker-file fine loop body (syncWorker.ts lines 80–88). -/
def fineStepW (refChunk target : List ℚ) (maxLagSamples : ℤ)
    (s : SearchState) (lag : ℤ) : SearchState :=
  if lag < -maxLagSamples ∨ maxLagSamples < lag then s
  else
    let corr := computeCorrelationW refChunk target lag
    if corrGtBest corr s.bestCorrelation then
      { s with bestCorrelation := some corr, bestLag := lag }
    else s

/-- `chunkSize = Math.min(reference.length, target.length, 8000 * 30)`
(autoSync.ts line 499). -/
def chunkSize (reference target : List ℚ) : ℕ :=
  min (min reference.length target.length) (TARGET_SAMPLE_RATE * 30)

/-- `chunkSize` as computed in the worker (syncWorker.ts lines 52–56),
via the `ANALYSIS_CHUNK_SECONDS` constant. -/
def chunkSizeW (reference target : List ℚ) : ℕ :=
  min (min reference.length target.length) (TARGET_SAMPLE_RATE * ANALYSIS_CHUNK_SECONDS)

/-- Phase 1 of `findBestLag` (autoSync.ts lines 502–524), including the
dead `coarseCandidates` accumulator the worker file drops. -/
def coarsePhase (reference target : List ℚ) (maxLagSamples : ℤ) :
    SearchState × List ℤ :=
  let refChunk := reference.take (chunkSize reference target)
  (coarseLags maxLagSamples).foldl
    (fun p lag => (coarseStep refChunk target p.1 lag, p.2 ++ [lag]))
    (⟨none, 0, 0, 0⟩, [])

/-- Phase 2 of `findBestLag` (autoSync.ts lines 526–536). -/
def finePhase (reference target : List ℚ) (maxLagSamples : ℤ) : SearchState :=
  let refChunk := reference.take (chunkSize reference target)
  let st1 := (coarsePhase reference target maxLagSamples).1
  (fineLags maxLagSamples st1.bestLag).foldl (fineStep refChunk target maxLagSamples) st1

/-- Result record of `findBestLag`. -/
structure LagResult where
  bestLag : ℤ
  confidence : ℚ
deriving DecidableEq, Repr

/-- `findBestLag` (autoSync.ts lines 492–545): coarse search, fine search,
then `confidence = avg > 0 ? min(1, best / (avg*3)) : 0` with
`avg = sumCorrelations / correlationCount`.  When `avg > 0` at least one
coarse iteration ran, so `bestCorrelation` is `some`; `getD 0` only fills
the unreachable `-Infinity` case. -/
def findBestLag (reference target : List ℚ) (maxLagSamples : ℤ) : LagResult :=
  let st1 := (coarsePhase reference target maxLagSamples).1
  let st2 := finePhase reference target maxLagSamples
  let avgCorrelation := st1.sumCorrelations / (st1.correlationCount : ℚ)
  let confidence :=
    if 0 < avgCorrelation then min 1 (st2.bestCorrelation.getD 0 / (avgCorrelation * 3))
    else 0
  ⟨st2.bestLag, confidence⟩

/-- Phase 1 as in the worker file (syncWorker.ts lines 59–76; no
candidate accumulator). -/
def coarsePhaseW (reference target : List ℚ) (maxLagSamples : ℤ) : SearchState :=
  let refChunk := reference.take (chunkSizeW reference target)
  (coarseLags maxLagSamples).foldl (coarseStepW refChunk target) ⟨none, 0, 0, 0⟩

/-- Phase 2 as in the worker file (syncWorker.ts lines 78–88). -/
def finePhaseW (reference target : List ℚ) (maxLagSamples : ℤ) : SearchState :=
  let refChunk := reference.take (chunkSizeW reference target)
  let st1 := coarsePhaseW reference target maxLagSamples
  (fineLags maxLagSamples st1.bestLag).foldl (fineStepW refChunk target maxLagSamples) st1

/-- `findBestLag` as defined in syncWorker.ts (lines 47–96). -/
def findBestLagW (reference target : List ℚ) (maxLagSamples : ℤ) : LagResult :=
  let st1 := coarsePhaseW reference target maxLagSamples
  let st2 := finePhaseW reference target maxLagSamples
  let avgCorrelation := st1.sumCorrelations / (st1.correlationCount : ℚ)
  let confidence :=
    if 0 < avgCorrelation then min 1 (st2.bestCorrelation.getD 0 / (avgCorrelation * 3))
    else 0
  ⟨st2.bestLag, confidence⟩

/-- `SyncResult` posted back by the worker / resolved by the fallback. -/
structure SyncResult where
  offsetSeconds : ℚ
  confidence : ℚ
deriving DecidableEq, Repr

/-- The worker's `onmessage` pipeline (syncWorker.ts lines 112–128):
normalize both signals, `maxLagSamples = Math.floor(maxOffsetSeconds ×
sampleRate)`, correlate, convert the lag to seconds. -/
def syncWorkerRun (videoSamples audioSamples : List ℚ)
    (maxOffsetSeconds sampleRate : ℚ) : SyncResult :=
  let normVideo := normalizeW videoSamples
  let normAudio := normalizeW audioSamples
  let maxLagSamples := ⌊maxOffsetSeconds * sampleRate⌋
  let r := findBestLagW normVideo normAudio maxLagSamples
  ⟨(r.bestLag : ℚ) / sampleRate, r.confidence⟩

/-- The synchronous fallback pipeline of `runCorrelationInWorker`
(autoSync.ts lines 603–613), with the offset bound and sample rate as
parameters (the call site passes `MAX_OFFSET_SECONDS` and
`TARGET_SAMPLE_RATE`, the same values it posts to the worker). -/
def autoSyncRun (videoSamples audioSamples : List ℚ)
    (maxOffsetSeconds sampleRate : ℚ) : SyncResult :=
  let normVideo := normalize videoSamples
  let normAudio := normalize audioSamples
  let maxLagSamples := ⌊maxOffsetSeconds * sampleRate⌋
  let r := findBestLag normVideo normAudio maxLagSamples
  ⟨(r.bestLag : ℚ) / sampleRate, r.confidence⟩

/-! ## MemoryGuard (fileValidation.ts lines 20–89, autoSync.ts lines 629–649) -/

/-- `const MB = 1024 * 1024`. -/
def MB : ℕ := 1024 * 1024

/-- `MEMORY_MULTIPLIER = 6`. -/
def MEMORY_MULTIPLIER : ℚ := 6

/-- `MAX_COMBINED_MEMORY_MB = 1536` (autoSync.ts line 437). -/
def MAX_COMBINED_MEMORY_MB : ℚ := 1536

/-- `estimateMemoryUsageMB(file) = (file.size / MB) * MEMORY_MULTIPLIER`
(fileValidation.ts lines 87–89), as a function of the file size in bytes. -/
def estimateMemoryUsageMB (fileSize : ℕ) : ℚ :=
  ((fileSize : ℚ) / (MB : ℚ)) * MEMORY_MULTIPLIER

/-- Step 0 of `autoSyncFiles` (autoSync.ts lines 636–643): the pre-decode
memory guard.  It reads only the two file sizes and either throws the
memory-limit error or lets the pipeline proceed to decoding. -/
def autoSyncMemoryGuard (videoSize audioSize : ℕ) : Except String Unit :=
  let estimatedMB := estimateMemoryUsageMB videoSize + estimateMemoryUsageMB audioSize
  if MAX_COMBINED_MEMORY_MB < estimatedMB then
    Except.error "Toplam tahmini bellek kullanimi cok yuksek"
  else Except.ok ()

/-! ## Theorems: SegmentCompiler -/

theorem sumDur_nil : sumDur [] = 0 := rfl

theorem sumDur_cons (c : CutSegment) (l : List CutSegment) :
    sumDur (c :: l) = (c.«end» - c.start) + sumDur l := by
  simp [sumDur]

theorem sumDur_append (a b : List CutSegment) :
    sumDur (a ++ b) = sumDur a + sumDur b := by
  simp [sumDur]

/-- The merged-cuts output of the merge loop is the accumulator followed by
what the loop produces from an empty accumulator. -/
theorem mergeLoop_fst_acc (rest : List (ℕ × CutSegment)) (heap : List CutSegment)
    (curIdx : ℕ) (cur : CutSegment) (acc : List CutSegment) :
    (mergeLoop heap curIdx cur rest acc).1 = acc ++ (mergeLoop heap curIdx cur rest []).1 := by
  induction rest generalizing heap curIdx cur acc with
  | nil => simp [mergeLoop]
  | cons nxt rest ih =>
    by_cases h : nxt.2.start < cur.«end»
    · simp only [mergeLoop, if_pos h]
      exact ih ..
    · simp only [mergeLoop, if_neg h]
      rw [ih _ _ _ (acc ++ [cur]), ih _ _ _ ([] ++ [cur])]
      simp

/-- The merge loop of `getKeepSegments` turns a sorted run of in-bounds
cuts into a `GoodChain`: its output is sorted, pairwise disjoint
(strictly increasing `end ≤ next.start`), non-degenerate, and bounded by
the total duration. -/
theorem mergeLoop_goodChain {D : ℚ} (rest : List (ℕ × CutSegment))
    (heap : List CutSegment) (curIdx : ℕ) (cur : CutSegment) (t : ℚ)
    (hall : ∀ p ∈ rest, cur.start ≤ p.2.start)
    (hsort : List.Pairwise (fun a b : ℕ × CutSegment => a.2.start ≤ b.2.start) rest)
    (hcur : GoodCut D cur) (hrest : ∀ p ∈ rest, GoodCut D p.2)
    (ht : t ≤ cur.start) :
    GoodChain D t ((mergeLoop heap curIdx cur rest []).1) := by
  induction rest generalizing heap curIdx cur t with
  | nil =>
    simp only [mergeLoop]
    exact GoodChain.cons ht hcur.2.1 hcur.2.2 (GoodChain.nil _)
  | cons nxt rest ih =>
    by_cases h : nxt.2.start < cur.«end»
    · simp only [mergeLoop, if_pos h]
      have hnxt : GoodCut D nxt.2 := hrest nxt (by simp)
      refine ih _ _ ⟨cur.start, max cur.«end» nxt.2.«end»⟩ t ?_ hsort.tail ?_ ?_ ht
      · intro p hp
        exact hall p (List.mem_cons_of_mem _ hp)
      · exact ⟨hcur.1, lt_of_lt_of_le hcur.2.1 (le_max_left _ _),
          max_le hcur.2.2 hnxt.2.2⟩
      · intro p hp
        exact hrest p (List.mem_cons_of_mem _ hp)
    · simp only [mergeLoop, if_neg h]
      rw [mergeLoop_fst_acc]
      simp only [List.nil_append, List.singleton_append]
      refine GoodChain.cons ht hcur.2.1 hcur.2.2 ?_
      refine ih _ _ nxt.2 cur.«end» ?_ hsort.tail (hrest nxt (by simp)) ?_ (not_lt.mp h)
      · intro p hp
        exact (List.pairwise_cons.mp hsort).1 p hp
      · intro p hp
        exact hrest p (List.mem_cons_of_mem _ hp)

/-- The keep-segment loop on a `GoodChain`: the emitted keep durations and
the traversed cut durations add up to the cursor's advance, and the final
cursor stays within the total duration. -/
theorem segLoop_spec {D : ℚ} {t : ℚ} {l : List CutSegment}
    (h : GoodChain D t l) (htD : t ≤ D) :
    sumDur (segLoop t l).1 + sumDur l + t = (segLoop t l).2 ∧ (segLoop t l).2 ≤ D := by
  induction h with
  | nil t => simpa [segLoop, sumDur]
  | @cons t c rest h1 h2 h3 hchain ih =>
    have hmax : max t c.«end» = c.«end» := max_eq_right (le_of_lt (lt_of_le_of_lt h1 h2))
    obtain ⟨ihs, ihle⟩ := ih h3
    simp only [segLoop, hmax] at ihs ihle ⊢
    refine ⟨?_, ihle⟩
    rw [sumDur_append, sumDur_cons]
    by_cases hg : c.start > t
    · simp only [if_pos hg, sumDur_cons, sumDur_nil] at *
      linarith
    · have : c.start = t := le_antisymm (not_lt.mp hg) h1
      simp only [if_neg hg, sumDur_nil] at *
      linarith

/-- Elements of `sortedEnum cuts` carry cuts of `cuts`. -/
theorem sortedEnum_mem {cuts : List CutSegment} {p : ℕ × CutSegment}
    (hp : p ∈ sortedEnum cuts) : p.2 ∈ cuts := by
  have hmem : p ∈ cuts.enum :=
    (List.perm_insertionSort (fun a b : ℕ × CutSegment => a.2.start ≤ b.2.start)
      cuts.enum).mem_iff.mp hp
  have := List.mem_map_of_mem Prod.snd hmem
  rwa [List.enum_map_snd] at this

/-- Claim C6: for in-bounds cuts, keep-segment durations and merged-cut
durations partition the total duration exactly. -/
theorem keep_plus_merged (cuts : List CutSegment) (D : ℚ)
    (h : ∀ c ∈ cuts, GoodCut D c) :
    sumDur (getKeepSegments cuts D).1 + sumDur (mergedResult cuts).1 = D := by
  by_cases hc : cuts.length = 0
  · have : cuts = [] := List.length_eq_zero.mp hc
    subst this
    simp [getKeepSegments, mergedResult, sortedEnum, sumDur, List.insertionSort]
  · have hlen : (sortedEnum cuts).length ≠ 0 := by
      unfold sortedEnum
      rw [(List.perm_insertionSort _ _).length_eq, List.enum_length]
      exact hc
    obtain ⟨first, rest, hs⟩ : ∃ f r, sortedEnum cuts = f :: r := by
      cases hse : sortedEnum cuts with
      | nil => exact absurd (by rw [hse]; rfl) hlen
      | cons f r => exact ⟨f, r, rfl⟩
    have hsorted : List.Pairwise (fun a b : ℕ × CutSegment => a.2.start ≤ b.2.start)
        (first :: rest) := by
      rw [← hs]
      exact List.sorted_insertionSort _ _
    have hgood : ∀ p ∈ (first :: rest), GoodCut D p.2 := by
      intro p hp
      exact h p.2 (sortedEnum_mem (by rw [hs]; exact hp))
    have hfirst : GoodCut D first.2 := hgood first (by simp)
    have hchain : GoodChain D 0 ((mergeLoop cuts first.1 first.2 rest []).1) :=
      mergeLoop_goodChain rest cuts first.1 first.2 0
        (fun p hp => (List.pairwise_cons.mp hsorted).1 p hp)
        hsorted.tail hfirst
        (fun p hp => hgood p (List.mem_cons_of_mem _ hp))
        hfirst.1
    have hmerged : (mergedResult cuts).1 = (mergeLoop cuts first.1 first.2 rest []).1 := by
      simp [mergedResult, hs]
    have hD0 : (0 : ℚ) ≤ D :=
      le_trans hfirst.1 (le_trans (le_of_lt hfirst.2.1) hfirst.2.2)
    obtain ⟨hsum, hle⟩ := segLoop_spec hchain hD0
    simp only [getKeepSegments, if_neg hc]
    rw [hmerged] at *
    rw [sumDur_append]
    split_ifs with ht
    · simp only [sumDur_cons, sumDur_nil]
      linarith
    · simp only [sumDur_nil]
      have : (segLoop 0 (mergeLoop cuts first.1 first.2 rest []).1).2 = D :=
        le_antisymm hle (not_lt.mp ht)
      linarith

/-- Claim C6 witness: the single cut `{1,2}` over duration 5 keeps
`[{0,1},{2,5}]` (total 4) and excludes 1 second, summing to 5. -/
theorem keep_plus_merged_witness :
    (∀ c ∈ [(⟨1, 2⟩ : CutSegment)], GoodCut 5 c) ∧
      sumDur (getKeepSegments [⟨1, 2⟩] 5).1 + sumDur (mergedResult [⟨1, 2⟩]).1 = 5 :=
  ⟨by decide, keep_plus_merged [⟨1, 2⟩] 5 (by decide)⟩

/-- Claim C5: touching cuts (second's start equals first's end) are not
merged — the merge phase returns them as two distinct cuts — and the
zero-length gap between them produces no keep segment:
`getKeepSegments([{10,20},{20,30}], 60) = [{0,10},{30,60}]`. -/
theorem getKeepSegments_touching_cuts :
    (mergedResult [⟨10, 20⟩, ⟨20, 30⟩]).1 = [⟨10, 20⟩, ⟨20, 30⟩] ∧
      (getKeepSegments [⟨10, 20⟩, ⟨20, 30⟩] 60).1 = [⟨0, 10⟩, ⟨30, 60⟩] := by
  decide

/-- Claim C4 (refuted): `getKeepSegments` writes through to the caller's
cut objects.  On `cuts = [{0,10},{5,20}]` (overlapping), the merge step
`currentCut.end = Math.max(currentCut.end, nextCut.end)` sets the first
cut's `end` to 20 in the caller's array, which afterwards reads
`[{0,20},{5,20}]` instead of the original `[{0,10},{5,20}]`. -/
theorem getKeepSegments_mutates_caller :
    (getKeepSegments [⟨0, 10⟩, ⟨5, 20⟩] 30).2 = [⟨0, 20⟩, ⟨5, 20⟩] ∧
      (getKeepSegments [⟨0, 10⟩, ⟨5, 20⟩] 30).2 ≠ [⟨0, 10⟩, ⟨5, 20⟩] := by
  decide

/-! ## Theorems: MemoryGuard -/

/-- Claim C8: the pre-decode memory guard of `autoSyncFiles` throws the
memory-limit error exactly when `(sizeA + sizeB) × 6 / 1MB > 1536`, and
proceeds to decoding when the combined size is at the boundary
(`256 · 2²⁰` bytes, whose estimate is exactly 1536 MB) or one byte below
it.  The guard is a pure function of the two file sizes alone. -/
theorem autoSyncMemoryGuard_iff :
    (∀ videoSize audioSize : ℕ,
      autoSyncMemoryGuard videoSize audioSize =
          Except.error "Toplam tahmini bellek kullanimi cok yuksek" ↔
        1536 < ((videoSize : ℚ) + (audioSize : ℚ)) * 6 / (1024 * 1024)) ∧
      autoSyncMemoryGuard (256 * 1024 * 1024) 0 = Except.ok () ∧
      autoSyncMemoryGuard (256 * 1024 * 1024 - 1) 0 = Except.ok () := by
  refine ⟨fun a b => ?_, ?_, ?_⟩
  · have harith : estimateMemoryUsageMB a + estimateMemoryUsageMB b =
        ((a : ℚ) + (b : ℚ)) * 6 / (1024 * 1024) := by
      unfold estimateMemoryUsageMB MB MEMORY_MULTIPLIER
      push_cast
      ring
    unfold autoSyncMemoryGuard
    rw [harith]
    unfold MAX_COMBINED_MEMORY_MB
    dsimp only
    split_ifs with h
    · simpa using h
    · simpa using h
  · norm_num [autoSyncMemoryGuard, estimateMemoryUsageMB, MB, MEMORY_MULTIPLIER,
      MAX_COMBINED_MEMORY_MB]
  · norm_num [autoSyncMemoryGuard, estimateMemoryUsageMB, MB, MEMORY_MULTIPLIER,
      MAX_COMBINED_MEMORY_MB]

/-! ## Theorems: the two `computeCorrelation`s agree -/

/-- Characterization of the worker's correlation fold: starting from
`(a, c)` it adds the in-range products to `a` and the in-range count to
`c`. -/
theorem corrStepW_foldl (ref target : List ℚ) (lag : ℤ) (l : List ℕ) (a : ℚ) (c : ℕ) :
    l.foldl (corrStepW ref target lag) (a, c) =
      (a + (l.map (fun (i : ℕ) => if (i : ℤ) + lag < 0 ∨ (target.length : ℤ) ≤ (i : ℤ) + lag
          then 0 else ref.getD i 0 * target.getD ((i : ℤ) + lag).toNat 0)).sum,
       c + (l.map (fun (i : ℕ) => if (i : ℤ) + lag < 0 ∨ (target.length : ℤ) ≤ (i : ℤ) + lag
          then (0 : ℕ) else 1)).sum) := by
  induction l generalizing a c with
  | nil => simp
  | cons i l ih =>
    simp only [List.foldl_cons, List.map_cons, List.sum_cons]
    by_cases h : (i : ℤ) + lag < 0 ∨ (target.length : ℤ) ≤ (i : ℤ) + lag
    · rw [show corrStepW ref target lag (a, c) i = (a, c) by
        unfold corrStepW; dsimp only; rw [if_pos h]]
      rw [ih, if_pos h, if_pos h]
      simp
    · rw [show corrStepW ref target lag (a, c) i =
          (a + ref.getD i 0 * target.getD ((i : ℤ) + lag).toNat 0, c + 1) by
        unfold corrStepW; dsimp only; rw [if_neg h]]
      rw [ih, if_neg h, if_neg h]
      refine Prod.ext ?_ ?_
      · dsimp only
        ring
      · dsimp only
        omega

/-- The worker's count-based `computeCorrelation` computes the same value
as the autoSync utility's start/end-window `computeCorrelation`, at every
pair of signals and every lag. -/
theorem computeCorrelationW_eq (ref target : List ℚ) (lag : ℤ) :
    computeCorrelationW ref target lag = computeCorrelation ref target lag := by
  unfold computeCorrelationW computeCorrelation
  dsimp only
  rw [corrStepW_foldl]
  dsimp only
  rw [zero_add, zero_add]
  set n := ref.length with hn
  set m := target.length with hm
  set sI : ℤ := max 0 (-lag) with hsI
  set eI : ℤ := min (n : ℤ) ((m : ℤ) - lag) with heI
  have h0s : 0 ≤ sI := le_max_left _ _
  -- list sums over `range` are `Finset.range` sums
  have hS : (((List.range n).map (fun (i : ℕ) =>
      if (i : ℤ) + lag < 0 ∨ (m : ℤ) ≤ (i : ℤ) + lag
      then 0 else ref.getD i 0 * target.getD ((i : ℤ) + lag).toNat 0)).sum) =
      ∑ i in Finset.range n, (if (i : ℤ) + lag < 0 ∨ (m : ℤ) ≤ (i : ℤ) + lag
        then 0 else ref.getD i 0 * target.getD ((i : ℤ) + lag).toNat 0) := rfl
  have hC : (((List.range n).map (fun (i : ℕ) =>
      if (i : ℤ) + lag < 0 ∨ (m : ℤ) ≤ (i : ℤ) + lag
      then (0 : ℕ) else 1)).sum) =
      ∑ i in Finset.range n, (if (i : ℤ) + lag < 0 ∨ (m : ℤ) ≤ (i : ℤ) + lag
        then (0 : ℕ) else 1) := rfl
  rw [hS, hC]
  have hfilter : (Finset.range n).filter
      (fun (i : ℕ) => ¬((i : ℤ) + lag < 0 ∨ (m : ℤ) ≤ (i : ℤ) + lag)) =
      Finset.Ico sI.toNat eI.toNat := by
    ext i
    simp only [Finset.mem_filter, Finset.mem_range, Finset.mem_Ico, hsI, heI]
    omega
  have hSsum : ∑ i in Finset.range n, (if (i : ℤ) + lag < 0 ∨ (m : ℤ) ≤ (i : ℤ) + lag
      then 0 else ref.getD i 0 * target.getD ((i : ℤ) + lag).toNat 0) =
      ∑ i in Finset.Ico sI.toNat eI.toNat,
        ref.getD i 0 * target.getD ((i : ℤ) + lag).toNat 0 := by
    rw [← hfilter, Finset.sum_filter]
    refine Finset.sum_congr rfl fun i _ => ?_
    rw [ite_not]
  have hCsum : ∑ i in Finset.range n, (if (i : ℤ) + lag < 0 ∨ (m : ℤ) ≤ (i : ℤ) + lag
      then (0 : ℕ) else 1) = eI.toNat - sI.toNat := by
    have hmid : ∑ i in Finset.range n, (if (i : ℤ) + lag < 0 ∨ (m : ℤ) ≤ (i : ℤ) + lag
        then (0 : ℕ) else 1) =
        ∑ _i in Finset.Ico sI.toNat eI.toNat, (1 : ℕ) := by
      rw [← hfilter, Finset.sum_filter]
      refine Finset.sum_congr rfl fun i _ => ?_
      rw [ite_not]
    rw [hmid, Finset.sum_const, Nat.card_Ico, smul_eq_mul, mul_one]
  rw [hSsum, hCsum]
  by_cases hse : eI ≤ sI
  · rw [if_pos hse, if_neg (by omega)]
  · rw [if_neg hse, if_pos (by omega)]
    have hwindow : ∑ i in Finset.Ico sI.toNat eI.toNat,
        ref.getD i 0 * target.getD ((i : ℤ) + lag).toNat 0 =
        ((List.range (eI - sI).toNat).map
          (fun (k : ℕ) => ref.getD (sI + (k : ℤ)).toNat 0 *
            target.getD (sI + (k : ℤ) + lag).toNat 0)).sum := by
      have hbridge : ((List.range (eI - sI).toNat).map
          (fun (k : ℕ) => ref.getD (sI + (k : ℤ)).toNat 0 *
            target.getD (sI + (k : ℤ) + lag).toNat 0)).sum =
          ∑ k in Finset.range (eI - sI).toNat,
            ref.getD (sI + (k : ℤ)).toNat 0 * target.getD (sI + (k : ℤ) + lag).toNat 0 := rfl
      rw [hbridge, Finset.sum_Ico_eq_sum_range]
      have hM : eI.toNat - sI.toNat = (eI - sI).toNat := by omega
      rw [hM]
      refine Finset.sum_congr rfl fun k _ => ?_
      have e1 : sI.toNat + k = (sI + (k : ℤ)).toNat := by omega
      rw [e1]
      have e2 : (((sI + (k : ℤ)).toNat : ℤ)) + lag = sI + (k : ℤ) + lag := by omega
      rw [e2]
    rw [hwindow]
    congr 1
    have hz : ((eI.toNat - sI.toNat : ℕ) : ℤ) = eI - sI := by omega
    exact_mod_cast hz

/-- Claim C9: whenever the overlap window at `lag` is empty (its start
index is at or past its end index), both `computeCorrelation`s return
exactly 0 — the division is never reached. -/
theorem computeCorrelation_empty_overlap (ref target : List ℚ) (lag : ℤ)
    (h : min (ref.length : ℤ) ((target.length : ℤ) - lag) ≤ max 0 (-lag)) :
    computeCorrelation ref target lag = 0 ∧ computeCorrelationW ref target lag = 0 := by
  have h1 : computeCorrelation ref target lag = 0 := by
    unfold computeCorrelation
    dsimp only
    rw [if_pos h]
  exact ⟨h1, by rw [computeCorrelationW_eq]; exact h1⟩

/-- Claim C9 witness: at `ref = [1]`, `target = [1]`, `lag = 5` the window
is empty and both correlation functions return 0. -/
theorem computeCorrelation_empty_overlap_witness :
    (min ((([1] : List ℚ).length : ℤ)) ((([1] : List ℚ).length : ℤ) - 5) ≤ max 0 (-(5 : ℤ))) ∧
      computeCorrelation [1] [1] 5 = 0 ∧ computeCorrelationW [1] [1] 5 = 0 :=
  ⟨by decide, computeCorrelation_empty_overlap [1] [1] 5 (by decide)⟩

/-! ## Theorems: worker path = fallback path (claim C3) -/

/-- The two files' `normalize` functions are the same function. -/
theorem normalizeW_eq : normalizeW = normalize := rfl

/-- The two files' coarse loop bodies agree. -/
theorem coarseStepW_eq : coarseStepW = coarseStep := by
  funext refChunk target s lag
  unfold coarseStepW coarseStep
  rw [computeCorrelationW_eq]

/-- The two files' fine loop bodies agree. -/
theorem fineStepW_eq : fineStepW = fineStep := by
  funext refChunk target maxLagSamples s lag
  unfold fineStepW fineStep
  rw [computeCorrelationW_eq]

/-- Dropping the dead `coarseCandidates` accumulator does not change the
search state a fold computes. -/
theorem foldl_pair_fst (f : SearchState → ℤ → SearchState) (l : List ℤ)
    (s : SearchState) (c : List ℤ) :
    (l.foldl (fun p lag => (f p.1 lag, p.2 ++ [lag])) (s, c)).1 = l.foldl f s := by
  induction l generalizing s c with
  | nil => rfl
  | cons lag l ih => exact ih (f s lag) (c ++ [lag])

/-- The worker's phase-1 state equals the autoSync utility's. -/
theorem coarsePhaseW_eq (reference target : List ℚ) (maxLagSamples : ℤ) :
    coarsePhaseW reference target maxLagSamples =
      (coarsePhase reference target maxLagSamples).1 := by
  unfold coarsePhaseW coarsePhase chunkSizeW chunkSize ANALYSIS_CHUNK_SECONDS
  rw [coarseStepW_eq]
  exact (foldl_pair_fst (coarseStep _ _) (coarseLags maxLagSamples) _ _).symm

/-- The worker's phase-2 state equals the autoSync utility's. -/
theorem finePhaseW_eq (reference target : List ℚ) (maxLagSamples : ℤ) :
    finePhaseW reference target maxLagSamples =
      finePhase reference target maxLagSamples := by
  unfold finePhaseW finePhase chunkSizeW chunkSize ANALYSIS_CHUNK_SECONDS
  rw [coarsePhaseW_eq, fineStepW_eq]

/-- The worker file's `findBestLag` is the same function as the autoSync
utility's. -/
theorem findBestLagW_eq : findBestLagW = findBestLag := by
  funext reference target maxLagSamples
  unfold findBestLagW findBestLag
  rw [coarsePhaseW_eq, finePhaseW_eq]

/-- Claim C3: the worker path and the synchronous fallback path compute
the same function — for every pair of sample buffers and every
`maxOffsetSeconds`/`sampleRate`, the worker pipeline (worker-file
`normalize` + `findBestLag`) returns exactly the
`{offsetSeconds, confidence}` of the autoSync-utility pipeline; in
particular the worker's count-based `computeCorrelation` equals the
fallback's start/end-window `computeCorrelation` at every lag. -/
theorem syncWorkerRun_eq_autoSyncRun :
    (∀ (videoSamples audioSamples : List ℚ) (maxOffsetSeconds sampleRate : ℚ),
      syncWorkerRun videoSamples audioSamples maxOffsetSeconds sampleRate =
        autoSyncRun videoSamples audioSamples maxOffsetSeconds sampleRate) ∧
      (∀ (ref target : List ℚ) (lag : ℤ),
        computeCorrelationW ref target lag = computeCorrelation ref target lag) := by
  constructor
  · intro videoSamples audioSamples maxOffsetSeconds sampleRate
    unfold syncWorkerRun autoSyncRun
    rw [normalizeW_eq, findBestLagW_eq]
  · exact computeCorrelationW_eq

/-! ## Theorems: `findBestLag` on silence (claim C1) -/

/-- `getD _ 0` of an all-zero list is 0 at every index. -/
theorem getD_eq_zero_of_all_zero {l : List ℚ} (h : ∀ x ∈ l, x = 0) (i : ℕ) :
    l.getD i 0 = 0 := by
  rw [List.getD_eq_getElem?_getD]
  by_cases hi : i < l.length
  · rw [List.getElem?_eq_getElem hi]
    exact h _ (List.getElem_mem hi)
  · rw [List.getElem?_eq_none (le_of_not_lt hi)]
    rfl

/-- Cross-correlation against an all-zero reference is 0 at every lag. -/
theorem computeCorrelation_zero_ref {ref : List ℚ} (target : List ℚ) (lag : ℤ)
    (h : ∀ x ∈ ref, x = 0) : computeCorrelation ref target lag = 0 := by
  unfold computeCorrelation
  dsimp only
  split_ifs with hse
  · rfl
  · rw [List.sum_eq_zero, zero_div]
    intro x hx
    obtain ⟨k, _, hk⟩ := List.mem_map.mp hx
    rw [← hk, getD_eq_zero_of_all_zero h, zero_mul]

/-- A coarse iteration at correlation 0 from the initial (`-Infinity`)
state: the first lag always wins the `corr > bestCorrelation` test. -/
theorem coarseStep_zero_init {refChunk target : List ℚ} {lag : ℤ}
    (hz : computeCorrelation refChunk target lag = 0) :
    coarseStep refChunk target ⟨none, 0, 0, 0⟩ lag = ⟨some 0, lag, 0, 1⟩ := by
  unfold coarseStep
  rw [hz]
  simp [corrGtBest]

/-- Once the best correlation is `some 0` and every remaining correlation
is 0, the coarse fold only increments the counter. -/
theorem coarse_fold_zero {refChunk target : List ℚ}
    (hz : ∀ lag, computeCorrelation refChunk target lag = 0) :
    ∀ (l : List ℤ) (bl : ℤ) (s : ℚ) (c : ℕ),
      l.foldl (coarseStep refChunk target) ⟨some 0, bl, s, c⟩ =
        ⟨some 0, bl, s, c + l.length⟩ := by
  intro l
  induction l with
  | nil => intro bl s c; simp
  | cons lag l ih =>
    intro bl s c
    have hstep : coarseStep refChunk target ⟨some 0, bl, s, c⟩ lag =
        ⟨some 0, bl, s, c + 1⟩ := by
      unfold coarseStep
      rw [hz]
      simp [corrGtBest]
    rw [List.foldl_cons, hstep, ih]
    simp only [List.length_cons]
    congr 1
    omega

/-- When every correlation is 0 the fine fold leaves a `some 0` best
state unchanged. -/
theorem fine_fold_zero {refChunk target : List ℚ} {maxLagSamples : ℤ}
    (hz : ∀ lag, computeCorrelation refChunk target lag = 0) :
    ∀ (l : List ℤ) (bl : ℤ) (s : ℚ) (c : ℕ),
      l.foldl (fineStep refChunk target maxLagSamples) ⟨some 0, bl, s, c⟩ =
        ⟨some 0, bl, s, c⟩ := by
  intro l
  induction l with
  | nil => intro bl s c; rfl
  | cons lag l ih =>
    intro bl s c
    have hstep : fineStep refChunk target maxLagSamples ⟨some 0, bl, s, c⟩ lag =
        ⟨some 0, bl, s, c⟩ := by
      unfold fineStep
      split_ifs with h1
      · rfl
      · rw [hz]
        simp [corrGtBest]
    rw [List.foldl_cons, hstep, ih]

/-- For a non-negative maximum lag, the coarse lag list starts with
`-maxLagSamples`. -/
theorem coarseLags_cons (maxLagSamples : ℤ) (hm : 0 ≤ maxLagSamples) :
    ∃ rest, coarseLags maxLagSamples = -maxLagSamples :: rest := by
  have hq : 0 ≤ 2 * maxLagSamples / searchStride maxLagSamples :=
    Int.ediv_nonneg (by linarith) (le_trans zero_le_one (le_max_left _ _))
  obtain ⟨k, hk⟩ : ∃ k, (2 * maxLagSamples / searchStride maxLagSamples + 1).toNat
      = k + 1 := ⟨(2 * maxLagSamples / searchStride maxLagSamples).toNat, by omega⟩
  refine ⟨((List.range k).map Nat.succ).map
    (fun (j : ℕ) => -maxLagSamples + (j : ℤ) * searchStride maxLagSamples), ?_⟩
  unfold coarseLags
  rw [hk, List.range_succ_eq_map, List.map_cons]
  simp

/-- On silent signals `findBestLag` keeps the first coarse candidate
`-maxLagSamples` as best lag (it beats the `-Infinity` initialization)
and reports confidence 0. -/
theorem findBestLag_silence_aux (ref target : List ℚ) (maxLagSamples : ℤ)
    (href : ∀ x ∈ ref, x = 0) (hm : 0 ≤ maxLagSamples) :
    findBestLag ref target maxLagSamples = ⟨-maxLagSamples, 0⟩ := by
  have hz : ∀ lag, computeCorrelation (ref.take (chunkSize ref target)) target lag = 0 :=
    fun lag => computeCorrelation_zero_ref target lag
      (fun x hx => href x (List.take_subset _ _ hx))
  obtain ⟨rest, hcl⟩ := coarseLags_cons maxLagSamples hm
  have hcoarse : (coarsePhase ref target maxLagSamples).1 =
      ⟨some 0, -maxLagSamples, 0, 1 + rest.length⟩ := by
    unfold coarsePhase
    dsimp only
    rw [foldl_pair_fst, hcl, List.foldl_cons, coarseStep_zero_init (hz _),
      coarse_fold_zero hz]
  have hfine : finePhase ref target maxLagSamples =
      ⟨some 0, -maxLagSamples, 0, 1 + rest.length⟩ := by
    unfold finePhase
    dsimp only
    rw [hcoarse]
    exact fine_fold_zero hz _ _ _ _
  unfold findBestLag
  dsimp only
  rw [hcoarse, hfine]
  simp

/-- Claim C1 (refuted as stated): on the all-zero signals `[0]`, `[0]`
with `maxLagSamples = 1` (a non-negative bound), `findBestLag` returns
`bestLag = -1`, not 0: the first coarse candidate `-maxLagSamples` wins
the comparison against the `-Infinity` initialization and no other zero
correlation can beat it. -/
theorem findBestLag_silence_refuted :
    (∀ x ∈ ([0] : List ℚ), x = 0) ∧ (0 : ℤ) ≤ 1 ∧
      (findBestLag [0] [0] 1).bestLag = -1 ∧ (findBestLag [0] [0] 1).bestLag ≠ 0 := by
  refine ⟨by decide, by decide, ?_, ?_⟩ <;>
    rw [findBestLag_silence_aux [0] [0] 1 (by decide) (by decide)] <;> decide

/-- Claim C1, amended: on all-zero (silent) signals with non-negative
`maxLagSamples`, `findBestLag` returns `bestLag = -maxLagSamples` (equal
to 0 exactly when `maxLagSamples = 0`) and `confidence = 0`, so the
derived `offsetSeconds` is `-maxLagSamples / sampleRate`. -/
theorem findBestLag_silence (ref target : List ℚ) (maxLagSamples : ℤ)
    (href : ∀ x ∈ ref, x = 0) (htarget : ∀ x ∈ target, x = 0)
    (hm : 0 ≤ maxLagSamples) (sampleRate : ℚ) :
    findBestLag ref target maxLagSamples = ⟨-maxLagSamples, 0⟩ ∧
      ((findBestLag ref target maxLagSamples).bestLag : ℚ) / sampleRate =
        -(maxLagSamples : ℚ) / sampleRate := by
  refine ⟨findBestLag_silence_aux ref target maxLagSamples href hm, ?_⟩
  rw [findBestLag_silence_aux ref target maxLagSamples href hm]
  push_cast
  ring

/-- Claim C1 witness for the amended statement: two silent one-sample
signals, `maxLagSamples = 2`, sample rate 8000. -/
theorem findBestLag_silence_witness :
    (∀ x ∈ ([0] : List ℚ), x = 0) ∧ (0 : ℤ) ≤ 2 ∧
      (findBestLag [0] [0] 2 = ⟨-2, 0⟩ ∧
        ((findBestLag [0] [0] 2).bestLag : ℚ) / 8000 = -(2 : ℚ) / 8000) :=
  ⟨by decide, by decide,
    findBestLag_silence [0] [0] 2 (by decide) (by decide) (by decide) 8000⟩

/-! ## Theorems: confidence range (claim C2) -/

/-- Claim C2 (refuted as stated): at `ref = [1]`, `target = [-1]`,
`maxLagSamples = 0`, the only correlation is `-1`, the mean absolute
correlation is `1 > 0`, and the confidence `min(1, -1/3) = -1/3` is
negative — outside `[0, 1]`. -/
theorem findBestLag_confidence_negative :
    (findBestLag [1] [-1] 0).confidence = -1 / 3 ∧
      (findBestLag [1] [-1] 0).confidence < 0 := by
  have hval : (findBestLag [1] [-1] 0).confidence = -1 / 3 := by
    norm_num [findBestLag, coarsePhase, finePhase, coarseLags, fineLags, searchStride,
      chunkSize, TARGET_SAMPLE_RATE, coarseStep, fineStep, corrGtBest,
      computeCorrelation, List.range_succ, min_def, (show Int.toNat 5 = 5 from rfl),
      Option.getD_some]
  exact ⟨hval, by rw [hval]; norm_num⟩

/-- Claim C2, amended: the confidence returned by `findBestLag` equals
`min(1, bestCorrelation / (meanAbsCorrelation × 3))` when the mean
absolute coarse correlation is positive and 0 when it is not, and it
never exceeds 1; it can however be negative (when the best correlation
is negative), so it does not always lie in `[0, 1]`. -/
theorem findBestLag_confidence (ref target : List ℚ) (maxLagSamples : ℤ) :
    (findBestLag ref target maxLagSamples).confidence =
        (if 0 < (coarsePhase ref target maxLagSamples).1.sumCorrelations /
            ((coarsePhase ref target maxLagSamples).1.correlationCount : ℚ) then
          min 1 ((finePhase ref target maxLagSamples).bestCorrelation.getD 0 /
            ((coarsePhase ref target maxLagSamples).1.sumCorrelations /
              ((coarsePhase ref target maxLagSamples).1.correlationCount : ℚ) * 3))
         else 0) ∧
      (findBestLag ref target maxLagSamples).confidence ≤ 1 := by
  constructor
  · rfl
  · unfold findBestLag
    dsimp only
    split_ifs
    · exact min_le_left _ _
    · norm_num

/-! ## Theorems: best lag stays within the admissible range (claim C10) -/

/-- Every coarse candidate lag lies in `[-maxLagSamples, maxLagSamples]`. -/
theorem coarseLags_bounds (maxLagSamples : ℤ) (hm : 0 ≤ maxLagSamples) :
    ∀ lag ∈ coarseLags maxLagSamples, -maxLagSamples ≤ lag ∧ lag ≤ maxLagSamples := by
  intro lag hlag
  unfold coarseLags at hlag
  obtain ⟨k, hk, rfl⟩ := List.mem_map.mp hlag
  have hk' := List.mem_range.mp hk
  have hstride : (1 : ℤ) ≤ searchStride maxLagSamples := le_max_left _ _
  have hq : 0 ≤ 2 * maxLagSamples / searchStride maxLagSamples :=
    Int.ediv_nonneg (by linarith) (by linarith)
  have hkq : (k : ℤ) ≤ 2 * maxLagSamples / searchStride maxLagSamples := by omega
  have hmul : (k : ℤ) * searchStride maxLagSamples ≤ 2 * maxLagSamples :=
    le_trans (mul_le_mul_of_nonneg_right hkq (by linarith))
      (Int.ediv_mul_le _ (by linarith))
  have hnn : 0 ≤ (k : ℤ) * searchStride maxLagSamples :=
    mul_nonneg (Int.natCast_nonneg k) (by linarith)
  constructor <;> linarith

/-- The coarse fold keeps `bestLag` within `[-maxLagSamples,
maxLagSamples]` as long as every visited lag is. -/
theorem coarse_fold_bestLag_bounds (refChunk target : List ℚ) (maxLagSamples : ℤ) :
    ∀ (l : List ℤ), (∀ lag ∈ l, -maxLagSamples ≤ lag ∧ lag ≤ maxLagSamples) →
      ∀ s : SearchState, -maxLagSamples ≤ s.bestLag ∧ s.bestLag ≤ maxLagSamples →
        -maxLagSamples ≤ (l.foldl (coarseStep refChunk target) s).bestLag ∧
          (l.foldl (coarseStep refChunk target) s).bestLag ≤ maxLagSamples := by
  intro l
  induction l with
  | nil => intro _ s hs; exact hs
  | cons lag l ih =>
    intro hl s hs
    rw [List.foldl_cons]
    refine ih (fun x hx => hl x (List.mem_cons_of_mem _ hx)) _ ?_
    unfold coarseStep
    dsimp only
    split_ifs
    · exact hl lag (List.mem_cons_self _ _)
    · exact hs

/-- The fine fold keeps `bestLag` within `[-maxLagSamples, maxLagSamples]`
because it explicitly skips out-of-range lags. -/
theorem fine_fold_bestLag_bounds (refChunk target : List ℚ) (maxLagSamples : ℤ) :
    ∀ (l : List ℤ) (s : SearchState),
      -maxLagSamples ≤ s.bestLag ∧ s.bestLag ≤ maxLagSamples →
        -maxLagSamples ≤ (l.foldl (fineStep refChunk target maxLagSamples) s).bestLag ∧
          (l.foldl (fineStep refChunk target maxLagSamples) s).bestLag ≤ maxLagSamples := by
  intro l
  induction l with
  | nil => intro s hs; exact hs
  | cons lag l ih =>
    intro s hs
    rw [List.foldl_cons]
    refine ih _ ?_
    unfold fineStep
    dsimp only
    split_ifs with h1 h2
    · exact hs
    · have hin := not_or.mp h1
      exact ⟨not_lt.mp hin.1, not_lt.mp hin.2⟩
    · exact hs

/-- Claim C10: for `maxLagSamples ≥ 0` the returned `bestLag` lies in
`[-maxLagSamples, maxLagSamples]`, hence for a positive sample rate the
derived `offsetSeconds = bestLag / sampleRate` satisfies
`|offsetSeconds| ≤ maxLagSamples / sampleRate`. -/
theorem findBestLag_lag_bounds (ref target : List ℚ) (maxLagSamples : ℤ)
    (hm : 0 ≤ maxLagSamples) (sampleRate : ℚ) (hr : 0 < sampleRate) :
    -maxLagSamples ≤ (findBestLag ref target maxLagSamples).bestLag ∧
      (findBestLag ref target maxLagSamples).bestLag ≤ maxLagSamples ∧
      |((findBestLag ref target maxLagSamples).bestLag : ℚ) / sampleRate| ≤
        (maxLagSamples : ℚ) / sampleRate := by
  have hbl : (findBestLag ref target maxLagSamples).bestLag =
      (finePhase ref target maxLagSamples).bestLag := rfl
  have hcoarse : -maxLagSamples ≤ (coarsePhase ref target maxLagSamples).1.bestLag ∧
      (coarsePhase ref target maxLagSamples).1.bestLag ≤ maxLagSamples := by
    unfold coarsePhase
    dsimp only
    rw [foldl_pair_fst]
    exact coarse_fold_bestLag_bounds _ _ _ _ (coarseLags_bounds _ hm) _
      ⟨by simpa using neg_nonpos.mpr hm, by simpa using hm⟩
  have hfine : -maxLagSamples ≤ (finePhase ref target maxLagSamples).bestLag ∧
      (finePhase ref target maxLagSamples).bestLag ≤ maxLagSamples := by
    unfold finePhase
    dsimp only
    exact fine_fold_bestLag_bounds _ _ _ _ _ hcoarse
  refine ⟨hbl ▸ hfine.1, hbl ▸ hfine.2, ?_⟩
  rw [abs_div, abs_of_pos hr]
  have habs : |((findBestLag ref target maxLagSamples).bestLag : ℚ)| ≤
      (maxLagSamples : ℚ) := by
    have : |(findBestLag ref target maxLagSamples).bestLag| ≤ maxLagSamples :=
      abs_le.mpr ⟨hbl ▸ hfine.1, hbl ▸ hfine.2⟩
    exact_mod_cast this
  gcongr

/-- Claim C10 witness: `ref = [1,2]`, `target = [2,1]`,
`maxLagSamples = 1`, `sampleRate = 2`. -/
theorem findBestLag_lag_bounds_witness :
    (0 : ℤ) ≤ 1 ∧ (0 : ℚ) < 2 ∧
      (-1 ≤ (findBestLag [1, 2] [2, 1] 1).bestLag ∧
        (findBestLag [1, 2] [2, 1] 1).bestLag ≤ 1 ∧
        |((findBestLag [1, 2] [2, 1] 1).bestLag : ℚ) / 2| ≤ (1 : ℚ) / 2) :=
  ⟨by decide, by decide, findBestLag_lag_bounds [1, 2] [2, 1] 1 (by decide) 2 (by decide)⟩

/-! ## Theorems: GraphBuilder sync-offset instructions (claim C7) -/

/-- The per-segment trim filters contain no delay and no head-trim
instruction, whatever the segments and audio sources are. -/
theorem segmentFilters_no_sync_instr (segments : List CutSegment) (g : ℕ → String) :
    (segmentFilters segments g).all
      (fun f => !f.isDelayInstr && !f.isHeadTrimInstr) = true := by
  rw [List.all_eq_true]
  intro x hx
  unfold segmentFilters at hx
  obtain ⟨p, _, hmem⟩ := List.mem_flatMap.mp hx
  simp only [List.mem_cons, List.mem_singleton, List.not_mem_nil, or_false] at hmem
  rcases hmem with h | h <;> subst h <;> rfl

/-- Claim C7: with external audio included and present, a positive sync
offset emits the `adelay` instruction with millisecond parameter
`round(|syncOffset| × 1000)`; a negative offset emits the head-trim
`atrim=start=|syncOffset|` followed by the timestamp reset; a zero offset
emits neither a delay nor a head-trim instruction.  The filter-complex
block is part of the emitted command. -/
theorem buildFFmpegCommand_syncOffset (config : ExportConfig) (cuts : List CutSegment)
    (totalDuration syncOffset : ℚ) (hasExternalAudio : Bool)
    (hinc : config.includeAudio = true) (hext : hasExternalAudio = true) :
    ((0 < syncOffset →
        FilterInstr.adelay "1:a" (jsRound (|syncOffset| * 1000)) "a_synced" ∈
          buildFilterComplex config cuts totalDuration syncOffset hasExternalAudio) ∧
      (syncOffset < 0 →
        FilterInstr.atrimStart "1:a" |syncOffset| "a_synced" ∈
            buildFilterComplex config cuts totalDuration syncOffset hasExternalAudio ∧
          FilterInstr.asetpts "a_synced" "a_synced_pts" ∈
            buildFilterComplex config cuts totalDuration syncOffset hasExternalAudio) ∧
      (syncOffset = 0 →
        (buildFilterComplex config cuts totalDuration syncOffset hasExternalAudio).all
          (fun f => !f.isDelayInstr && !f.isHeadTrimInstr) = true)) ∧
      FFArg.filterComplexArg
          (buildFilterComplex config cuts totalDuration syncOffset hasExternalAudio) ∈
        buildFFmpegCommand config cuts totalDuration syncOffset hasExternalAudio := by
  subst hext
  refine ⟨⟨?_, ?_, ?_⟩, ?_⟩
  · intro hpos
    have hsf : syncFilters config.includeAudio true syncOffset =
        ([.adelay "1:a" (jsRound (|syncOffset| * 1000)) "a_synced"], "a_synced") := by
      unfold syncFilters
      rw [hinc]
      simp [ne_of_gt hpos, hpos, jsRound]
    simp only [buildFilterComplex]
    rw [hsf]
    simp
  · intro hneg
    have hsf : syncFilters config.includeAudio true syncOffset =
        ([.atrimStart "1:a" |syncOffset| "a_synced",
          .asetpts "a_synced" "a_synced_pts"], "a_synced_pts") := by
      unfold syncFilters
      rw [hinc]
      simp [ne_of_lt hneg, not_lt.mpr (le_of_lt hneg), hneg]
    constructor <;> (simp only [buildFilterComplex]; rw [hsf]; simp)
  · intro hzero
    subst hzero
    have hsf : syncFilters config.includeAudio true 0 = ([], "1:a") := by
      unfold syncFilters
      rw [hinc]
      simp
    simp only [buildFilterComplex]
    rw [hsf]
    have hstream : isStreamRef "1:a" = true := by decide
    rw [hstream]
    simp only [Bool.not_true, Bool.and_false, if_false, List.nil_append,
      List.all_append, segmentFilters_no_sync_instr]
    cases hna : config.normalizeAudio <;>
      simp [FilterInstr.isDelayInstr, FilterInstr.isHeadTrimInstr]
  · unfold buildFFmpegCommand
    simp

/-- Claim C7 witness: an mp4 export with external audio, no cuts, and a
positive offset of half a second (`adelay` parameter 500 ms), plus the
negative and zero cases are covered by the hypotheses being concrete. -/
theorem buildFFmpegCommand_syncOffset_witness :
    ({ format := VideoFormat.mp4, quality := Quality.high, includeAudio := true,
       applyCuts := false, normalizeAudio := false } : ExportConfig).includeAudio = true ∧
      (true : Bool) = true ∧
      ((0 < (1 / 2 : ℚ) →
        FilterInstr.adelay "1:a" (jsRound (|(1 / 2 : ℚ)| * 1000)) "a_synced" ∈
          buildFilterComplex
            { format := VideoFormat.mp4, quality := Quality.high, includeAudio := true,
              applyCuts := false, normalizeAudio := false } [] 10 (1 / 2) true) ∧
       ((1 / 2 : ℚ) < 0 →
        FilterInstr.atrimStart "1:a" |(1 / 2 : ℚ)| "a_synced" ∈
            buildFilterComplex
              { format := VideoFormat.mp4, quality := Quality.high, includeAudio := true,
                applyCuts := false, normalizeAudio := false } [] 10 (1 / 2) true ∧
          FilterInstr.asetpts "a_synced" "a_synced_pts" ∈
            buildFilterComplex
              { format := VideoFormat.mp4, quality := Quality.high, includeAudio := true,
                applyCuts := false, normalizeAudio := false } [] 10 (1 / 2) true) ∧
       ((1 / 2 : ℚ) = 0 →
        (buildFilterComplex
            { format := VideoFormat.mp4, quality := Quality.high, includeAudio := true,
              applyCuts := false, normalizeAudio := false } [] 10 (1 / 2) true).all
          (fun f => !f.isDelayInstr && !f.isHeadTrimInstr) = true)) ∧
      FFArg.filterComplexArg
          (buildFilterComplex
            { format := VideoFormat.mp4, quality := Quality.high, includeAudio := true,
              applyCuts := false, normalizeAudio := false } [] 10 (1 / 2) true) ∈
        buildFFmpegCommand
          { format := VideoFormat.mp4, quality := Quality.high, includeAudio := true,
            applyCuts := false, normalizeAudio := false } [] 10 (1 / 2) true :=
  ⟨rfl, rfl,
    buildFFmpegCommand_syncOffset
      { format := VideoFormat.mp4, quality := Quality.high, includeAudio := true,
        applyCuts := false, normalizeAudio := false } [] 10 (1 / 2) true rfl rfl⟩

end VideoEditor
